import Mathlib

/-!
Verification of the booking-agent conversation orchestrator
(`app/agent/orchestrator.py` and the persistence helpers it calls).

The Python code is shallowly embedded: strings are Lean `String`s
(manipulated through their underlying `List Char`), Python dictionaries
coming from JSON parsing are association lists, the non-deterministic
completion service and the external store are modelled by an explicit
`Oracle` record of the values they return during one orchestrator pass,
and each LangGraph node becomes a function on the agent state.
-/

namespace Booking

/-! ## String primitives (Python `str` operations on `List Char`) -/

/-- Python `str.strip()`: drop whitespace from both ends. -/
def pyStrip (l : List Char) : List Char :=
  ((l.dropWhile Char.isWhitespace).reverse.dropWhile Char.isWhitespace).reverse

/-- Python `str.lower()`: character-wise lowercasing. -/
def pyLower (l : List Char) : List Char :=
  l.map Char.toLower

/-- Python prefix test used to realise substring search. -/
def isPre : List Char → List Char → Bool
  | [], _ => true
  | _ :: _, [] => false
  | a :: ps, b :: ls => a == b && isPre ps ls

/-- Python `needle in haystack` substring containment. -/
def isSub (p : List Char) : List Char → Bool
  | [] => p.isEmpty
  | b :: ls => isPre p (b :: ls) || isSub p ls

/-- `any(word in s for word in words)` over a keyword table. -/
def hasWord (words : List String) (ls : List Char) : Bool :=
  words.any (fun w => isSub w.data ls)

/-- `s in words` exact membership of a string in a keyword table. -/
def inWordList (words : List String) (ls : List Char) : Bool :=
  words.any (fun w => w.data == ls)

/-- `re.search(r"(\d+)", s)`: the first maximal run of digits, if any. -/
def firstDigits : List Char → Option (List Char)
  | [] => none
  | c :: rest =>
    if c.isDigit then some (c :: rest.takeWhile Char.isDigit)
    else firstDigits rest

/-- `s.replace(",", "")`. -/
def removeCommas (l : List Char) : List Char :=
  l.filter (fun c => c != ',')

/-- `re.search(r"(\d+\.?\d*)", s)`: first digit run with an optional
fractional part. -/
def firstNumber : List Char → Option (List Char)
  | [] => none
  | c :: rest =>
    if c.isDigit then
      some (c :: (rest.takeWhile Char.isDigit ++
        match rest.dropWhile Char.isDigit with
        | '.' :: r2 => '.' :: r2.takeWhile Char.isDigit
        | _ => []))
    else firstNumber rest

/-- Python `", ".join(l)`-style joining. -/
def pyJoin (sep : String) : List String → String
  | [] => ""
  | [x] => x
  | x :: xs => x ++ sep ++ pyJoin sep xs

/-! ## The slot normalizer (`normalize` inside `handle_venue_inquiry`,
orchestrator.py lines 218-243) -/

/-- The "unspecified" sentinel used by the extraction code. -/
def sentinelStr : String := "(not specified)"

def attendance_words : List String :=
  ["attendance", "people", "folks", "guests", "attendees", "crowd", "residents"]

def payment_words : List String :=
  ["$", "budget", "pay", "fee", "quote", "pricing", "rate", "discount"]

def pa_yes_words : List String :=
  ["yes", "provided", "available", "have pa", "have a pa", "pa provided",
   "sound and staging are provided"]

def pa_no_words : List String :=
  ["no", "not available", "need pa", "no pa", "don\x27t have pa",
   "do not have pa", "need you to bring one"]

def duration_words : List String :=
  ["hour", "set", "duration", "evening", "afternoon"]

def vague_words : List String :=
  ["early", "late", "summer", "spring", "fall", "winter", "evening", "afternoon"]

/-- The keyword-dispatch part of `normalize`, applied to the stripped
value `s` and its lowercasing `ls` (the code's local variables of the
same names). -/
def normalizeBody (s ls : List Char) : String :=
  if hasWord attendance_words ls then
    match firstDigits s with
    | some d => String.mk d
    | none => String.mk s
  else if hasWord payment_words ls then
    match firstDigits (removeCommas s) with
    | some d => String.mk ('$' :: d)
    | none => String.mk s
  else if inWordList pa_yes_words ls then "yes"
  else if inWordList pa_no_words ls then "no"
  else if hasWord duration_words ls then
    match firstNumber s with
    | some n => String.mk (n ++ (" hours").data)
    | none => String.mk s
  else if hasWord vague_words ls then String.mk s
  else String.mk s

/-- `normalize(val)` from orchestrator.py lines 218-243, for string inputs. -/
def normalize (val : String) : String :=
  if val = "" || val = sentinelStr then sentinelStr
  else normalizeBody (pyStrip val.data) (pyLower (pyStrip val.data))

example : normalize "crowd of 1,500 people" = "1" := by decide
example : normalize "budget is $1,200" = "$1200" := by decide
example : normalize "two 90-minute sets" = "90 hours" := by decide
example : normalize "  yes " = "yes" := by decide
example : normalize "early November" = "early November" := by decide
example : normalize " " = "" := by decide
example : normalize "" = "(not specified)" := by decide

/-! ## Slot extraction (`handle_venue_inquiry`, orchestrator.py lines 211-294) -/

/-- The six booking fields tracked for a venue inquiry. -/
structure SlotSet where
  requested_dates : String
  event_type : String
  expected_attendance : String
  payment_offer : String
  pa_available : String
  load_in_time : String
deriving DecidableEq, Repr

/-- Python `d.get(k, default)` on the parsed JSON object, modelled as an
association list. -/
def dictGet (d : List (String × String)) (k dflt : String) : String :=
  match d.find? (fun p => p.1 == k) with
  | some p => p.2
  | none => dflt

/-- The slot set built from a parsed extraction object
(orchestrator.py lines 244-249): every field defaults to the sentinel
and is then normalized. -/
def slotsFrom (extracted : List (String × String)) : SlotSet where
  requested_dates := normalize (dictGet extracted "requested_dates" "(not specified)")
  event_type := normalize (dictGet extracted "event_type" "(not specified)")
  expected_attendance := normalize (dictGet extracted "expected_attendance" "(not specified)")
  payment_offer := normalize (dictGet extracted "payment_offer" "(not specified)")
  pa_available := normalize (dictGet extracted "pa_available" "(not specified)")
  load_in_time := normalize (dictGet extracted "load_in_time" "(not specified)")

/-- `json.loads` wrapped in `try/except` (orchestrator.py lines 214-217):
a parse failure yields the empty object. -/
def slotsFromParse (parsed : Option (List (String × String))) : SlotSet :=
  slotsFrom (parsed.getD [])

/-- The all-sentinel slot set. -/
def allUnspecifiedSlots : SlotSet where
  requested_dates := "(not specified)"
  event_type := "(not specified)"
  expected_attendance := "(not specified)"
  payment_offer := "(not specified)"
  pa_available := "(not specified)"
  load_in_time := "(not specified)"

/-- `missing_details` (orchestrator.py lines 266-276): sequentially append
the label of each still-unspecified field.  `requested_dates` is never
inspected. -/
def missing_details (c : SlotSet) : List String :=
  (if c.event_type = "(not specified)" then ["event type"] else []) ++
  (if c.expected_attendance = "(not specified)" then ["expected attendance"] else []) ++
  (if c.payment_offer = "(not specified)" then ["payment offer"] else []) ++
  (if c.pa_available = "(not specified)" then ["PA system availability"] else []) ++
  (if c.load_in_time = "(not specified)" then ["load-in time"] else [])

/-- The follow-up string built in the clarify branch
(orchestrator.py line 292), `none` when the complete-details branch is
taken instead (line 278). -/
def clarifyFollowUp (c : SlotSet) : Option String :=
  if missing_details c = [] then none
  else some ("To proceed, could you please provide the following details: " ++
    pyJoin ", " (missing_details c) ++ ".")

/-! ## The orchestrator state machine -/

/-- A message in the LangGraph state: `HumanMessage` or `AIMessage`. -/
inductive Msg where
  | human (content : String)
  | ai (content : String)
deriving DecidableEq, Repr

def Msg.content : Msg → String
  | .human c => c
  | .ai c => c

def Msg.isHuman : Msg → Bool
  | .human _ => true
  | .ai _ => false

def Msg.isAI : Msg → Bool
  | .human _ => false
  | .ai _ => true

/-- `sender_type: Literal["venue", "band_member", "admin"]`. -/
inductive SenderType where
  | venue | band_member | admin
deriving DecidableEq, Repr

/-- `AgentState` (orchestrator.py lines 30-41).  The dynamically added
slot keys written by the complete-details branch (lines 281-286) are
modelled by the optional `saved_slots` field. -/
structure AgentState where
  messages : List Msg
  conversation_id : String
  sender_email : String
  sender_name : String
  sender_type : SenderType
  intent : String
  booking_constraints : List String
  requires_human_approval : Bool
  next_action : Option String
  saved_slots : Option SlotSet
deriving DecidableEq, Repr

/-- The values returned by the external collaborators (completion service
and persistence store) during one orchestrator pass.  Each field is the
content the corresponding call yields. -/
structure Oracle where
  classifyResponse : String
  constraints : List String
  extractionParse : Option (List (String × String))
  inquiryReply : String
  availabilityReply : String
  negotiationReply : String
  contractReply : String
deriving Repr

/-- Hard-coded roster list (orchestrator.py lines 138-143). -/
def band_member_emails : List String :=
  ["dave@sickdaywithferris.band",
   "john@sickdaywithferris.band",
   "mike@sickdaywithferris.band",
   "sarah@sickdaywithferris.band"]

/-- Lowercase a whole string, Python `str.lower()`. -/
def pyLowerStr (s : String) : String := String.mk (pyLower s.data)

/-- Substring containment on strings, Python `in`. -/
def isSubStr (p s : String) : Bool := isSub p.data s.data

/-- The keyword match on the classifier response
(orchestrator.py lines 125-135): `response.content.lower().strip()`
checked against the intent keyword groups in priority order. -/
def keywordIntent (resp : String) : String :=
  let intent := String.mk (pyStrip (pyLower resp.data))
  if isSubStr "venue" intent || isSubStr "booking" intent then "venue_inquiry"
  else if isSubStr "availability" intent || isSubStr "available" intent then "availability_request"
  else if isSubStr "negotiat" intent || isSubStr "price" intent || isSubStr "offer" intent then "negotiation"
  else if isSubStr "contract" intent then "contract_request"
  else "general"

/-- `classify_intent` (orchestrator.py lines 93-151): keyword-match the
classifier output, then force `venue_inquiry` when the sender is not a
band member and `len(state["messages"]) <= 1`. -/
def classify_intent (o : Oracle) (s : AgentState) : AgentState :=
  if (s.messages.filter Msg.isHuman).isEmpty then { s with intent := "general" }
  else
    let base := { s with intent := keywordIntent o.classifyResponse }
    let semail := pyLowerStr s.sender_email
    if !(band_member_emails.contains semail) && decide (s.messages.length ≤ 1) then
      { base with intent := "venue_inquiry" }
    else base

/-- Python `a.replace(old, new)` on char lists (all occurrences,
left to right); `old` is nonempty at every call site. -/
def replaceList (pat rep : List Char) : List Char → List Char
  | [] => []
  | c :: rest =>
    if h : pat ≠ [] ∧ isPre pat (c :: rest) then
      rep ++ replaceList pat rep ((c :: rest).drop pat.length)
    else
      c :: replaceList pat rep rest
termination_by l => l.length
decreasing_by
  · simp only [List.length_drop, List.length_cons]
    have : pat.length ≠ 0 := fun hz => h.1 (List.length_eq_zero.mp hz)
    omega
  · simp

/-- Python `str.replace` wrapper. -/
def pyReplace (s pat rep : String) : String :=
  String.mk (replaceList pat.data rep.data s.data)

/-- `handle_venue_inquiry` (orchestrator.py lines 157-310).  The LLM
extraction response has already been parsed (or failed to parse) into
`o.extractionParse`; the generated reply for the clarify branch is
`o.inquiryReply`. -/
def handle_venue_inquiry (o : Oracle) (s : AgentState) : AgentState :=
  let s := { s with booking_constraints := o.constraints }
  let slots := slotsFromParse o.extractionParse
  if missing_details slots = [] then
    { s with saved_slots := some slots, intent := "availability_request" }
  else
    let patched := pyReplace (pyReplace o.inquiryReply "[Your Name]" "Ferris") "[YourName]" "Ferris"
    { s with messages := s.messages ++ [Msg.ai patched],
             requires_human_approval := false }

/-- `handle_availability_request` (orchestrator.py lines 312-345). -/
def handle_availability_request (o : Oracle) (s : AgentState) : AgentState :=
  { s with messages := s.messages ++ [Msg.ai o.availabilityReply],
           requires_human_approval := false }

/-- The accept/agree test of `handle_negotiation`
(orchestrator.py line 379). -/
def negotiationAccept (reply : String) : Bool :=
  isSubStr "accept" (pyLowerStr reply) || isSubStr "agree" (pyLowerStr reply)

/-- `handle_negotiation` (orchestrator.py lines 347-385). -/
def handle_negotiation (o : Oracle) (s : AgentState) : AgentState :=
  let s := { s with booking_constraints := o.constraints,
                    messages := s.messages ++ [Msg.ai o.negotiationReply] }
  if negotiationAccept o.negotiationReply then
    { s with requires_human_approval := true, next_action := some "pending_approval" }
  else
    { s with requires_human_approval := false }

/-- `handle_contract_request` (orchestrator.py lines 387-414). -/
def handle_contract_request (o : Oracle) (s : AgentState) : AgentState :=
  { s with messages := s.messages ++ [Msg.ai o.contractReply],
           requires_human_approval := true,
           next_action := some "contract_approval_needed" }

/-- `check_approval_needed` (orchestrator.py lines 416-427): observation
only, the state is returned unchanged. -/
def check_approval_needed (s : AgentState) : AgentState := s

/-- `save_to_database` (orchestrator.py lines 429-475): persists messages
(side effects on the external store only) and returns the state
unchanged; exceptions are logged and swallowed. -/
def save_to_database (s : AgentState) : AgentState := s

/-- `route_by_intent` plus the conditional-edge table of `_build_graph`
(orchestrator.py lines 69-79): `venue_inquiry` and `general` go to the
inquiry handler (the default handler), the rest to their own handler. -/
def runHandler (o : Oracle) (s : AgentState) : AgentState :=
  match s.intent with
  | "availability_request" => handle_availability_request o s
  | "negotiation" => handle_negotiation o s
  | "contract_request" => handle_contract_request o s
  | _ => handle_venue_inquiry o s

/-- The per-pass initial state built by `process_message`
(orchestrator.py lines 509-521): only the new inbound message is placed
in `messages`. -/
def initialState (content conv email name : String) (ty : SenderType) : AgentState where
  messages := [Msg.human content]
  conversation_id := conv
  sender_email := email
  sender_name := name
  sender_type := ty
  intent := ""
  booking_constraints := []
  requires_human_approval := false
  next_action := none
  saved_slots := none

/-- Every state reached during one orchestrator pass: the initial state
and the state after each graph node
(`classify → handler → check_approval → save`). -/
def passStates (o : Oracle) (init : AgentState) : List AgentState :=
  let s1 := classify_intent o init
  let s2 := runHandler o s1
  let s3 := check_approval_needed s2
  let s4 := save_to_database s3
  [init, s1, s2, s3, s4]

/-- The dictionary returned by `process_message`
(orchestrator.py lines 530-536). -/
structure AgentResult where
  response : String
  conversation_id : String
  intent : String
  requires_human_approval : Bool
  next_action : Option String
deriving DecidableEq, Repr

/-- `process_message` (orchestrator.py lines 477-536): run the graph on
the freshly initialised state and read the last assistant message (empty
string when there is none). -/
def process_message (o : Oracle) (content conv email name : String)
    (ty : SenderType) : AgentResult :=
  let final := save_to_database (check_approval_needed
    (runHandler o (classify_intent o (initialState content conv email name ty))))
  let assistant := final.messages.filter Msg.isAI
  { response := ((assistant.getLast?).map Msg.content).getD ""
    conversation_id := conv
    intent := final.intent
    requires_human_approval := final.requires_human_approval
    next_action := final.next_action }

/-- A conversation is driven by calling `process_message` once per
inbound message with the same `conversation_id`
(orchestrator.py lines 498-524, webhooks.py lines 81-87): the state for
a pass is built solely from the new message, so the prior transcript
(already persisted under that conversation) never reaches
`state["messages"]`. -/
def turnInitialState (priorTranscript : List Msg) (content conv email name : String)
    (ty : SenderType) : AgentState :=
  initialState content conv email name ty

/-! ## Frame lemmas for the graph nodes -/

theorem classify_intent_frame (o : Oracle) (s : AgentState) :
    (classify_intent o s).messages = s.messages ∧
    (classify_intent o s).requires_human_approval = s.requires_human_approval ∧
    (classify_intent o s).next_action = s.next_action := by
  unfold classify_intent
  split
  · exact ⟨rfl, rfl, rfl⟩
  · dsimp only
    split <;> exact ⟨rfl, rfl, rfl⟩

theorem handler_approval_invariant (o : Oracle) (s : AgentState)
    (h : s.next_action = none) (hna : (runHandler o s).next_action ≠ none) :
    (runHandler o s).requires_human_approval = true := by
  revert hna
  unfold runHandler
  split <;> intro hna
  · exact absurd h hna
  · by_cases hb : negotiationAccept o.negotiationReply
    · simp [handle_negotiation, hb]
    · simp [handle_negotiation, hb, h] at hna
  · rfl
  · by_cases hm : missing_details (slotsFromParse o.extractionParse) = []
    · simp [handle_venue_inquiry, hm, h] at hna
    · simp [handle_venue_inquiry, hm, h] at hna

/-- C2: starting from the per-pass initial state (`next_action` unset,
`requires_human_approval` false), after every node of a single
orchestrator pass, whenever `next_action` is set the approval flag is
true: no operation of the pass sets a next action without also setting
the approval flag. -/
theorem pass_approval_invariant (o : Oracle)
    (content conv email name : String) (ty : SenderType) (s : AgentState)
    (hmem : s ∈ passStates o (initialState content conv email name ty))
    (hna : s.next_action ≠ none) :
    s.requires_human_approval = true := by
  have hinit : (initialState content conv email name ty).next_action = none := rfl
  simp only [passStates, check_approval_needed, save_to_database,
    List.mem_cons, List.not_mem_nil, or_false] at hmem
  have h1 := (classify_intent_frame o (initialState content conv email name ty)).2.2
  rcases hmem with rfl | rfl | rfl | rfl | rfl
  · exact absurd hinit hna
  · rw [h1] at hna; exact absurd hinit hna
  · exact handler_approval_invariant o _ (h1.trans hinit) hna
  · exact handler_approval_invariant o _ (h1.trans hinit) hna
  · exact handler_approval_invariant o _ (h1.trans hinit) hna

def oW2 : Oracle where
  classifyResponse := "please draft the contract"
  constraints := []
  extractionParse := none
  inquiryReply := ""
  availabilityReply := ""
  negotiationReply := ""
  contractReply := "Here is the draft contract."

def initW2 : AgentState :=
  initialState "Send the contract over." "conv-2" "dave@sickdaywithferris.band"
    "Dave" SenderType.band_member

theorem pass_approval_invariant_witness :
    (runHandler oW2 (classify_intent oW2 initW2)).requires_human_approval = true :=
  pass_approval_invariant oW2 "Send the contract over." "conv-2"
    "dave@sickdaywithferris.band" "Dave" SenderType.band_member _
    (by decide) (by decide)

/-- C3: in the negotiation stage, a generated reply whose lowercasing
contains "accept" or "agree" yields approval required and next action
`pending_approval`; a reply containing neither yields approval false and
leaves the (per-pass initially unset) next action unset. -/
theorem negotiation_approval_rule (o : Oracle) (s : AgentState)
    (h : s.next_action = none) :
    (negotiationAccept o.negotiationReply = true →
      (handle_negotiation o s).requires_human_approval = true ∧
      (handle_negotiation o s).next_action = some "pending_approval") ∧
    (negotiationAccept o.negotiationReply = false →
      (handle_negotiation o s).requires_human_approval = false ∧
      (handle_negotiation o s).next_action = none) := by
  unfold handle_negotiation
  constructor <;> intro hb <;> simp [hb, h]

def oW3 : Oracle where
  classifyResponse := ""
  constraints := []
  extractionParse := none
  inquiryReply := ""
  availabilityReply := ""
  negotiationReply := "We gladly Accept these terms."
  contractReply := ""

def sW3 : AgentState :=
  initialState "Can you do 1200?" "conv-3" "sarah@thebasement.com"
    "Sarah Johnson" SenderType.venue

theorem negotiation_approval_rule_witness :
    (handle_negotiation oW3 sW3).requires_human_approval = true ∧
    (handle_negotiation oW3 sW3).next_action = some "pending_approval" :=
  (negotiation_approval_rule oW3 sW3 rfl).1 (by decide)

/-- C4: a contract-stage pass always requires human approval and sets the
contract-approval next action, regardless of the generated draft. -/
theorem contract_always_gated (o : Oracle) (s : AgentState) :
    (handle_contract_request o s).requires_human_approval = true ∧
    (handle_contract_request o s).next_action = some "contract_approval_needed" :=
  ⟨rfl, rfl⟩

/-! ## C10: the complete-details branch produces a silent pass -/

/-- C10: whenever a pass routes to the inquiry handler and the extraction
leaves no tracked field unspecified, the handler takes the
complete-details branch, no assistant message is appended, and
`process_message` returns an empty response with approval false and no
next action. -/
theorem venue_inquiry_complete_branch (o : Oracle) (s : AgentState)
    (h : missing_details (slotsFromParse o.extractionParse) = []) :
    handle_venue_inquiry o s =
      { s with booking_constraints := o.constraints,
               saved_slots := some (slotsFromParse o.extractionParse),
               intent := "availability_request" } := by
  unfold handle_venue_inquiry
  simp [h]

theorem complete_details_silent_pass (o : Oracle)
    (content conv email name : String) (ty : SenderType)
    (hroute : (classify_intent o (initialState content conv email name ty)).intent = "venue_inquiry" ∨
      (classify_intent o (initialState content conv email name ty)).intent = "general")
    (hcomplete : missing_details (slotsFromParse o.extractionParse) = []) :
    (process_message o content conv email name ty).response = "" ∧
    (process_message o content conv email name ty).requires_human_approval = false ∧
    (process_message o content conv email name ty).next_action = none := by
  obtain ⟨hm, ha, hn⟩ := classify_intent_frame o (initialState content conv email name ty)
  have hrun : runHandler o (classify_intent o (initialState content conv email name ty)) =
      handle_venue_inquiry o (classify_intent o (initialState content conv email name ty)) := by
    unfold runHandler
    rcases hroute with h | h <;> rw [h] <;> rfl
  unfold process_message save_to_database check_approval_needed
  rw [hrun, venue_inquiry_complete_branch o _ hcomplete]
  dsimp only
  rw [hm, ha, hn]
  dsimp only [initialState]
  simp [Msg.isAI]

def oW10 : Oracle where
  classifyResponse := "venue booking inquiry"
  constraints := []
  extractionParse := some [("requested_dates", "July 3, 2026"), ("event_type", "wedding"),
    ("expected_attendance", "150"), ("payment_offer", "$1200"), ("pa_available", "yes"),
    ("load_in_time", "5pm")]
  inquiryReply := ""
  availabilityReply := ""
  negotiationReply := ""
  contractReply := ""

theorem complete_details_silent_pass_witness :
    (process_message oW10 "Wedding on July 3, 2026, 150 guests, $1200, we have a PA, load-in 5pm."
      "conv-10" "pat@example.com" "Pat" SenderType.venue).response = "" ∧
    (process_message oW10 "Wedding on July 3, 2026, 150 guests, $1200, we have a PA, load-in 5pm."
      "conv-10" "pat@example.com" "Pat" SenderType.venue).requires_human_approval = false ∧
    (process_message oW10 "Wedding on July 3, 2026, 150 guests, $1200, we have a PA, load-in 5pm."
      "conv-10" "pat@example.com" "Pat" SenderType.venue).next_action = none :=
  complete_details_silent_pass oW10
    "Wedding on July 3, 2026, 150 guests, $1200, we have a PA, load-in 5pm."
    "conv-10" "pat@example.com" "Pat" SenderType.venue
    (Or.inl (by decide)) (by decide)

/-! ## C1: the first-turn-only override -/

def oC1 : Oracle where
  classifyResponse := "contract"
  constraints := []
  extractionParse := none
  inquiryReply := ""
  availabilityReply := ""
  negotiationReply := ""
  contractReply := ""

/-- C1 (evidence for the code bug): because `process_message`
re-initialises `messages` to only the new inbound message, the
`len(state["messages"]) <= 1` test of `classify_intent` holds on every
turn, so the non-roster override forces `venue_inquiry` on every turn of
a conversation — for any prior transcript, not only the first turn —
even when the keyword-matched classifier intent is `contract_request`.
This contradicts the code's own comment ("Only force venue_inquiry for
the first message in a conversation"). -/
theorem override_fires_on_every_turn (priorTranscript : List Msg) :
    (classify_intent oC1 (turnInitialState priorTranscript
      "Great, please send over the contract." "conv-1" "sarah@thebasement.com"
      "Sarah Johnson" SenderType.venue)).intent = "venue_inquiry" ∧
    keywordIntent oC1.classifyResponse = "contract_request" :=
  ⟨rfl, by decide⟩

/-! ## C5: the follow-up list of unspecified fields -/

/-- Modelled from the claim's words: the six field names in the claimed
fixed order (dates first), keeping those still unspecified. -/
def specClaimMissing (c : SlotSet) : List String :=
  (([("dates", c.requested_dates), ("event type", c.event_type),
     ("attendance", c.expected_attendance), ("payment", c.payment_offer),
     ("PA availability", c.pa_available), ("load-in time", c.load_in_time)]).filter
    (fun p => p.2 == "(not specified)")).map Prod.fst

/-- A normalized slot set whose only unspecified field is the requested
dates. -/
def cOnlyDatesMissing : SlotSet where
  requested_dates := "(not specified)"
  event_type := "wedding"
  expected_attendance := "150"
  payment_offer := "$1200"
  pa_available := "yes"
  load_in_time := "5pm"

/-- C5 counterexample: the claim entails that every slot set with at
least one unspecified field yields a clarifying follow-up listing those
fields; but when only `requested_dates` is unspecified the handler takes
the complete-details branch and produces no follow-up at all. -/
theorem inquiry_followup_claim_refuted :
    ¬ (∀ c : SlotSet, specClaimMissing c ≠ [] →
      clarifyFollowUp c = some ("To proceed, could you please provide the following details: " ++
        pyJoin ", " (specClaimMissing c) ++ ".")) :=
  fun h => absurd (h cOnlyDatesMissing (by decide)) (by decide)

/-- Modelled from the amended claim: only the five checked fields, in the
code's fixed order, with the code's field labels. -/
def specAmendedMissing (c : SlotSet) : List String :=
  (([("event type", c.event_type), ("expected attendance", c.expected_attendance),
     ("payment offer", c.payment_offer), ("PA system availability", c.pa_available),
     ("load-in time", c.load_in_time)]).filter
    (fun p => p.2 == "(not specified)")).map Prod.fst

/-- C5 (amended): the follow-up appended to the reply prompt lists
exactly the unspecified fields among event type, expected attendance,
payment offer, PA system availability and load-in time, in that fixed
order, comma-joined after the fixed prefix and with a trailing period;
no follow-up is generated when none of those five is unspecified
(requested dates is never listed). -/
theorem inquiry_followup_amended (c : SlotSet) :
    missing_details c = specAmendedMissing c ∧
    (specAmendedMissing c = [] → clarifyFollowUp c = none) ∧
    (specAmendedMissing c ≠ [] → clarifyFollowUp c =
      some ("To proceed, could you please provide the following details: " ++
        pyJoin ", " (specAmendedMissing c) ++ ".")) := by
  have hlist : missing_details c = specAmendedMissing c := by
    unfold missing_details specAmendedMissing
    by_cases h1 : c.event_type = "(not specified)" <;>
    by_cases h2 : c.expected_attendance = "(not specified)" <;>
    by_cases h3 : c.payment_offer = "(not specified)" <;>
    by_cases h4 : c.pa_available = "(not specified)" <;>
    by_cases h5 : c.load_in_time = "(not specified)" <;>
      simp [h1, h2, h3, h4, h5]
  refine ⟨hlist, ?_, ?_⟩ <;> intro h <;> unfold clarifyFollowUp <;> rw [hlist] <;> simp [h]

def cW5 : SlotSet where
  requested_dates := "June 12th"
  event_type := "(not specified)"
  expected_attendance := "75"
  payment_offer := "$800"
  pa_available := "no"
  load_in_time := "(not specified)"

theorem inquiry_followup_amended_witness :
    clarifyFollowUp cW5 =
      some ("To proceed, could you please provide the following details: " ++
        pyJoin ", " (specAmendedMissing cW5) ++ ".") :=
  (inquiry_followup_amended cW5).2.2 (by decide)

/-! ## C6: what the extraction pass actually consumes -/

/-- `last_user_message` (orchestrator.py line 172):
`state["messages"][-1].content if state["messages"] else ""` — only the
final message is appended to the extraction prompt. -/
def last_user_message (msgs : List Msg) : String :=
  match msgs.getLast? with
  | some m => m.content
  | none => ""

/-- A slot set representing values extracted in an earlier pass. -/
def priorPassSlots : SlotSet where
  requested_dates := "July 3, 2026"
  event_type := "wedding"
  expected_attendance := "150"
  payment_offer := "$1200"
  pa_available := "yes"
  load_in_time := "5pm"

/-- C6 counterexample: the claim entails that the current slot values are
the defaults of the next extraction, so a field omitted by the new
extraction keeps its prior value; but the code's defaults are the
sentinel, so the prior value is lost — and the text submitted for
extraction is only the latest turn, not the concatenated inbound turns. -/
theorem extraction_feedback_claim_refuted :
    (¬ ∀ (prior : SlotSet) (e : List (String × String)),
        (∀ p ∈ e, p.1 ≠ "event_type") →
        (slotsFromParse (some e)).event_type = prior.event_type) ∧
    last_user_message [Msg.human "QQQQ wedding on September 18, 2026",
      Msg.human "Does Friday work?"] = "Does Friday work?" := by
  constructor
  · intro h
    have h2 := h priorPassSlots [] (by simp)
    exact absurd h2 (by decide)
  · rfl

/-- C6 (amended): the extraction consumes only the latest message's text,
and the defaults fed to the extraction are the unspecified sentinel for
every field, so a field the new extraction omits becomes unspecified
rather than keeping a previously extracted value. -/
theorem extraction_last_message_and_sentinel_defaults
    (msgs : List Msg) (m : Msg) (e : List (String × String))
    (h : ∀ p ∈ e, p.1 ≠ "event_type") :
    last_user_message (msgs ++ [m]) = m.content ∧
    (slotsFromParse (some e)).event_type = "(not specified)" := by
  constructor
  · unfold last_user_message
    rw [List.getLast?_concat]
  · have hfind : e.find? (fun p => p.1 == "event_type") = none := by
      rw [List.find?_eq_none]
      intro p hp
      simpa using h p hp
    unfold slotsFromParse slotsFrom dictGet
    simp [hfind]
    decide

theorem extraction_last_message_and_sentinel_defaults_witness :
    last_user_message ([Msg.human "QQQQ wedding on September 18, 2026"] ++
      [Msg.human "Does Friday at 8 work?"]) = "Does Friday at 8 work?" ∧
    (slotsFromParse (some [("requested_dates", "June 12th")])).event_type = "(not specified)" :=
  extraction_last_message_and_sentinel_defaults
    [Msg.human "QQQQ wedding on September 18, 2026"]
    (Msg.human "Does Friday at 8 work?")
    [("requested_dates", "June 12th")] (by decide)

/-! ## C8: extraction parse failure -/

/-- C8 counterexample: the claim entails that on a parse failure every
slot field falls back to its prior value, i.e. the resulting slot set
equals the prior one; but the code rebuilds it from the constant
sentinel defaults. -/
theorem parse_failure_claim_refuted :
    ¬ (∀ prior : SlotSet, slotsFromParse none = prior) :=
  fun h => absurd (h priorPassSlots) (by decide)

/-- C8 (amended): a parse failure is treated exactly like an empty
extraction object — the inquiry handler behaves identically on the two —
and every slot field of the failed extraction is the unspecified
sentinel; the handler returns normally, so the failure never escapes the
pass. -/
theorem parse_failure_treated_as_empty (o : Oracle) (s : AgentState) :
    handle_venue_inquiry { o with extractionParse := none } s =
      handle_venue_inquiry { o with extractionParse := some [] } s ∧
    slotsFromParse none = allUnspecifiedSlots :=
  ⟨rfl, by decide⟩

/-! ## C9: the persisted sender display name (`save_to_database`,
orchestrator.py lines 446-468) -/

/-- A contact row as read back from the store; `none` models a column
the row does not provide. -/
structure Contact where
  first_name : Option String
  last_name : Option String
deriving DecidableEq, Repr

/-- `email.split("@", 1)[0]`. -/
def localPart (email : String) : String :=
  String.mk (email.data.takeWhile (fun c => c != '@'))

/-- `f"{first_name} {last_name}".strip()` with
`contact.get(...) or ''` for each column. -/
def contactFullName (ct : Contact) : String :=
  String.mk (pyStrip ((ct.first_name.getD "") ++ " " ++ (ct.last_name.getD "")).data)

/-- The `safe_sender_name` computation of `save_to_database`
(orchestrator.py lines 454-460): when a contact row exists its
stripped stored name is used, else the email local part (or "Unknown"
for an empty email); only when no contact row exists is the provided
sender name consulted. -/
def safe_sender_name (contact : Option Contact) (sender_name sender_email : String) : String :=
  match contact with
  | some ct =>
    if contactFullName ct ≠ "" then contactFullName ct
    else if sender_email ≠ "" then localPart sender_email else "Unknown"
  | none =>
    if sender_name ≠ "" then sender_name
    else if sender_email ≠ "" then localPart sender_email else "Unknown"

/-- Modelled from the claim's words: contact's stored name when
non-empty, else the provided sender name when non-empty, else the
email's local part. -/
def claimDisplayName (contact : Option Contact) (sender_name sender_email : String) : String :=
  let stored := match contact with
    | some ct => contactFullName ct
    | none => ""
  if stored ≠ "" then stored
  else if sender_name ≠ "" then sender_name
  else localPart sender_email

/-- C9 counterexample: for a stored contact whose name columns are empty
while a non-empty sender name was provided, the code persists the email
local part, not the provided sender name required by the claim. -/
theorem display_name_claim_refuted :
    safe_sender_name (some ⟨some "", some ""⟩) "Alice Smith" "alice@example.com" ≠
      claimDisplayName (some ⟨some "", some ""⟩) "Alice Smith" "alice@example.com" := by
  decide

/-- C9 (amended): when a contact row exists, the persisted name is the
contact's stored name when non-empty and otherwise the email's local
part — the provided sender name is not consulted; only when no contact
row exists does the priority provided-sender-name-then-local-part
apply. -/
theorem display_name_priority (ct : Contact) (n e : String) :
    (contactFullName ct ≠ "" → safe_sender_name (some ct) n e = contactFullName ct) ∧
    (contactFullName ct = "" → e ≠ "" → safe_sender_name (some ct) n e = localPart e) ∧
    (n ≠ "" → safe_sender_name none n e = n) ∧
    (n = "" → e ≠ "" → safe_sender_name none n e = localPart e) := by
  refine ⟨fun h => ?_, fun h he => ?_, fun h => ?_, fun h he => ?_⟩
  · simp [safe_sender_name, h]
  · simp [safe_sender_name, h, he]
  · simp [safe_sender_name, h]
  · simp [safe_sender_name, h, he]

theorem display_name_priority_witness :
    safe_sender_name (some ⟨some "", some ""⟩) "Alice Smith" "alice@example.com" =
      localPart "alice@example.com" :=
  (display_name_priority ⟨some "", some ""⟩ "Alice Smith" "alice@example.com").2.1
    (by decide) (by decide)

/-! ## C7: idempotence of the normalizer

`normalize` is not idempotent on whitespace-only strings (they strip to
the empty string, which the next application turns into the sentinel);
on every other string it is.  The development below proves both. -/

/-- C7 counterexample: a single space normalizes to the empty string
but a second application turns that into the sentinel. -/
theorem normalize_not_idempotent :
    normalize (normalize " ") ≠ normalize " " := by decide

theorem dropWhile_eq_self_of_all {p : Char → Bool} {l : List Char}
    (h : ∀ c ∈ l, p c = false) : l.dropWhile p = l := by
  cases l with
  | nil => rfl
  | cons a t =>
    rw [List.dropWhile_cons, if_neg]
    simp [h a (List.mem_cons_self a t)]

theorem pyStrip_eq_self_of_all {l : List Char}
    (h : ∀ c ∈ l, c.isWhitespace = false) : pyStrip l = l := by
  unfold pyStrip
  rw [dropWhile_eq_self_of_all h,
      dropWhile_eq_self_of_all (fun c hc => h c (List.mem_reverse.mp hc)),
      List.reverse_reverse]

theorem pyLower_eq_self {l : List Char}
    (h : ∀ c ∈ l, c.toLower = c) : pyLower l = l := by
  unfold pyLower
  induction l with
  | nil => rfl
  | cons a t ih =>
    rw [List.map_cons, h a (List.mem_cons_self a t),
        ih (fun c hc => h c (List.mem_cons_of_mem a hc))]

theorem isPre_mem {p l : List Char} (h : isPre p l = true) :
    ∀ c ∈ p, c ∈ l := by
  induction p generalizing l with
  | nil => intro c hc; exact absurd hc (List.not_mem_nil c)
  | cons a ps ih =>
    cases l with
    | nil => exact absurd h (by simp [isPre])
    | cons b ls =>
      rw [isPre, Bool.and_eq_true, beq_iff_eq] at h
      intro c hc
      rcases List.mem_cons.mp hc with rfl | hc2
      · exact h.1 ▸ List.mem_cons_self c ls
      · exact List.mem_cons_of_mem b (ih h.2 c hc2)

theorem isSub_mem {p l : List Char} (h : isSub p l = true) :
    ∀ c ∈ p, c ∈ l := by
  induction l with
  | nil =>
    intro c hc
    rw [isSub, List.isEmpty_iff] at h
    subst h
    exact absurd hc (List.not_mem_nil c)
  | cons b ls ih =>
    rw [isSub, Bool.or_eq_true] at h
    intro c hc
    rcases h with h | h
    · exact isPre_mem h c hc
    · exact List.mem_cons_of_mem b (ih h c hc)

theorem isSub_all {P : Char → Bool} {p l : List Char}
    (hl : l.all P = true) (h : isSub p l = true) : p.all P = true := by
  rw [List.all_eq_true] at hl ⊢
  exact fun c hc => hl c (isSub_mem h c hc)

theorem ne_of_all_of_any {P : Char → Bool} {t m : List Char}
    (ht : t.all P = true) (hm : m.any (fun c => !P c) = true) : t ≠ m := by
  intro he
  subst he
  rw [List.any_eq_true] at hm
  obtain ⟨c, hc, hcp⟩ := hm
  rw [List.all_eq_true] at ht
  rw [ht c hc] at hcp
  exact absurd hcp (by simp)

theorem hasWord_eq_false {words : List String} {l : List Char} {P : Char → Bool}
    (hw : words.all (fun w => w.data.any (fun c => !P c)) = true)
    (hl : l.all P = true) : hasWord words l = false := by
  unfold hasWord
  rw [List.any_eq_false]
  intro w hw2 hsub
  have hall := isSub_all hl hsub
  have hany := (List.all_eq_true.mp hw) w hw2
  exact absurd rfl (ne_of_all_of_any hall hany)

theorem inWordList_eq_false {words : List String} {l : List Char} {P : Char → Bool}
    (hw : words.all (fun w => w.data.any (fun c => !P c)) = true)
    (hl : l.all P = true) : inWordList words l = false := by
  unfold inWordList
  rw [List.any_eq_false]
  intro w hw2 hbeq
  have hany := (List.all_eq_true.mp hw) w hw2
  exact absurd (beq_iff_eq.mp hbeq).symm (ne_of_all_of_any hl (by simpa using hany))

theorem isPre_append_self (p r : List Char) : isPre p (p ++ r) = true := by
  induction p with
  | nil => rfl
  | cons a ps ih => simp [isPre, ih]

theorem isSub_parts (pre p post : List Char) :
    isSub p (pre ++ (p ++ post)) = true := by
  induction pre with
  | nil =>
    cases p with
    | nil => cases post <;> rfl
    | cons a ps =>
      rw [List.nil_append, List.cons_append, isSub, Bool.or_eq_true]
      exact Or.inl (isPre_append_self (a :: ps) post)
  | cons b bs ih =>
    rw [List.cons_append, isSub, Bool.or_eq_true]
    exact Or.inr ih

/-! ### Character class facts -/

theorem ws_cases {c : Char} (h : c.isWhitespace = true) :
    c = ' ' ∨ c = '\t' ∨ c = '\r' ∨ c = '\n' := by
  have h2 : ((c = ' ' ∨ c = '\t') ∨ c = '\x0d') ∨ c = '\n' := by
    simpa [Char.isWhitespace, decide_eq_true_eq] using h
  tauto

theorem digit_not_ws {c : Char} (h : c.isDigit = true) :
    c.isWhitespace = false := by
  cases hb : c.isWhitespace
  · rfl
  · rcases ws_cases hb with rfl | rfl | rfl | rfl <;> exact absurd h (by decide)

theorem digit_val_le {c : Char} (h : c.isDigit = true) : c.toNat ≤ 57 := by
  unfold Char.isDigit at h
  rw [Bool.and_eq_true] at h
  exact UInt32.toNat_le_of_le (by norm_num) (of_decide_eq_true h.2)

theorem digit_toLower {c : Char} (h : c.isDigit = true) : c.toLower = c := by
  have h2 := digit_val_le h
  unfold Char.toLower
  rw [if_neg (by omega)]

theorem digit_ne_comma {c : Char} (h : c.isDigit = true) : (c != ',') = true := by
  cases hb : (c != ',')
  · have : c = ',' := by simpa using hb
    subst this
    exact absurd h (by decide)
  · rfl

/-! ### pyStrip idempotence -/

theorem dropWhile_head_not {p : Char → Bool} {l : List Char} {c : Char}
    (h : (l.dropWhile p).head? = some c) : p c = false := by
  induction l with
  | nil => simp [List.dropWhile_nil] at h
  | cons a t ih =>
    rw [List.dropWhile_cons] at h
    by_cases hp : p a
    · rw [if_pos hp] at h
      exact ih h
    · rw [if_neg hp, List.head?_cons] at h
      injection h with h
      subst h
      simpa using hp

theorem dropWhile_suffix (p : Char → Bool) (l : List Char) :
    ∃ t, l = t ++ l.dropWhile p := by
  induction l with
  | nil => exact ⟨[], rfl⟩
  | cons a m ih =>
    by_cases hp : p a
    · obtain ⟨t, ht⟩ := ih
      refine ⟨a :: t, ?_⟩
      rw [List.dropWhile_cons, if_pos hp, List.cons_append, ← ht]
    · exact ⟨[], by rw [List.dropWhile_cons, if_neg hp, List.nil_append]⟩

theorem pyStrip_head_not {l : List Char} {c : Char}
    (h : (pyStrip l).head? = some c) : c.isWhitespace = false := by
  unfold pyStrip at h
  rw [List.head?_reverse] at h
  obtain ⟨t, ht⟩ :=
    dropWhile_suffix Char.isWhitespace (l.dropWhile Char.isWhitespace).reverse
  have h2 : ((t ++ (l.dropWhile Char.isWhitespace).reverse.dropWhile
      Char.isWhitespace)).getLast? = some c := by
    rw [List.getLast?_append, h]
    rfl
  rw [← ht, List.getLast?_reverse] at h2
  exact dropWhile_head_not h2

theorem pyStrip_getLast_not {l : List Char} {c : Char}
    (h : (pyStrip l).getLast? = some c) : c.isWhitespace = false := by
  unfold pyStrip at h
  rw [List.getLast?_reverse] at h
  exact dropWhile_head_not h

theorem pyStrip_eq_self_of_ends {l : List Char}
    (hh : ∀ c, l.head? = some c → c.isWhitespace = false)
    (hg : ∀ c, l.getLast? = some c → c.isWhitespace = false) :
    pyStrip l = l := by
  have h1 : l.dropWhile Char.isWhitespace = l := by
    cases l with
    | nil => rfl
    | cons a t => rw [List.dropWhile_cons, if_neg (by simp [hh a rfl])]
  unfold pyStrip
  rw [h1]
  have h2 : l.reverse.dropWhile Char.isWhitespace = l.reverse := by
    cases hr : l.reverse with
    | nil => rw [List.dropWhile_nil]
    | cons a t =>
      have ha : l.getLast? = some a := by
        rw [← List.head?_reverse, hr, List.head?_cons]
      rw [List.dropWhile_cons, if_neg (by simp [hg a ha])]
  rw [h2, List.reverse_reverse]

theorem pyStrip_idem (l : List Char) : pyStrip (pyStrip l) = pyStrip l :=
  pyStrip_eq_self_of_ends (fun _ h => pyStrip_head_not h)
    (fun _ h => pyStrip_getLast_not h)

/-! ### Digit-run facts -/

theorem takeWhile_eq_self_of_all {p : Char → Bool} {l : List Char}
    (h : l.all p = true) : l.takeWhile p = l :=
  List.takeWhile_eq_self_iff.mpr (by simpa [List.all_eq_true] using h)

theorem firstDigits_shape {l d : List Char} (h : firstDigits l = some d) :
    d ≠ [] ∧ d.all Char.isDigit = true := by
  induction l with
  | nil => simp [firstDigits] at h
  | cons c rest ih =>
    rw [firstDigits] at h
    by_cases hc : c.isDigit
    · rw [if_pos hc] at h
      injection h with h
      subst h
      exact ⟨by simp, by simp [List.all_cons, hc, List.all_takeWhile]⟩
    · rw [if_neg hc] at h
      exact ih h

theorem firstDigits_of_digits {d : List Char} (hne : d ≠ [])
    (hall : d.all Char.isDigit = true) : firstDigits d = some d := by
  cases d with
  | nil => exact absurd rfl hne
  | cons c rest =>
    rw [List.all_cons, Bool.and_eq_true] at hall
    rw [firstDigits, if_pos hall.1, takeWhile_eq_self_of_all hall.2]

theorem firstNumber_shape {l n : List Char} (h : firstNumber l = some n) :
    ∃ I rest2, n = I ++ rest2 ∧ I ≠ [] ∧ I.all Char.isDigit = true ∧
      (rest2 = [] ∨ ∃ F, rest2 = '.' :: F ∧ F.all Char.isDigit = true) := by
  induction l with
  | nil => simp [firstNumber] at h
  | cons c rest ih =>
    rw [firstNumber] at h
    by_cases hc : c.isDigit
    · rw [if_pos hc] at h
      injection h with h
      subst h
      have hM : (match rest.dropWhile Char.isDigit with
          | '.' :: r2 => '.' :: r2.takeWhile Char.isDigit
          | _ => ([] : List Char)) = [] ∨
          ∃ F, (match rest.dropWhile Char.isDigit with
          | '.' :: r2 => '.' :: r2.takeWhile Char.isDigit
          | _ => ([] : List Char)) = '.' :: F ∧ F.all Char.isDigit = true := by
        split
        · exact Or.inr ⟨_, rfl, List.all_takeWhile⟩
        · exact Or.inl rfl
      refine ⟨c :: rest.takeWhile Char.isDigit, _, ?_, by simp, ?_, hM⟩
      · rw [List.cons_append]
      · simp [List.all_cons, hc, List.all_takeWhile]
    · rw [if_neg hc] at h
      exact ih h

theorem firstNumber_hours {I rest2 : List Char} (hI : I ≠ [])
    (hId : I.all Char.isDigit = true)
    (hr : rest2 = [] ∨ ∃ F, rest2 = '.' :: F ∧ F.all Char.isDigit = true) :
    firstNumber ((I ++ rest2) ++ (" hours").data) = some (I ++ rest2) := by
  have hsfx : (" hours").data = ' ' :: 'h' :: 'o' :: 'u' :: 'r' :: 's' :: [] := rfl
  cases I with
  | nil => exact absurd rfl hI
  | cons c I' =>
    rw [List.all_cons, Bool.and_eq_true] at hId
    have hI'all : ∀ a ∈ I', Char.isDigit a :=
      fun a ha => List.all_eq_true.mp hId.2 a ha
    rcases hr with rfl | ⟨F, rfl, hF⟩
    · rw [hsfx]
      simp only [List.append_nil, List.cons_append]
      rw [firstNumber, if_pos hId.1,
          List.takeWhile_append_of_pos hI'all,
          List.dropWhile_append_of_pos hI'all,
          List.takeWhile_cons, if_neg (by decide),
          List.dropWhile_cons, if_neg (by decide)]
      simp
    · have hFall : ∀ a ∈ F, Char.isDigit a :=
        fun a ha => List.all_eq_true.mp hF a ha
      rw [hsfx]
      simp only [List.cons_append, List.append_assoc]
      rw [firstNumber, if_pos hId.1,
          List.takeWhile_append_of_pos hI'all,
          List.dropWhile_append_of_pos hI'all,
          List.takeWhile_cons, if_neg (by decide),
          List.dropWhile_cons, if_neg (by decide)]
      simp only [List.append_nil, Option.some.injEq, List.cons.injEq, true_and]
      rw [List.takeWhile_append_of_pos hFall,
          List.takeWhile_cons, if_neg (by decide)]
      simp

/-! ### Shapes of normalizer outputs are fixed points -/

theorem all_mono {P Q : Char → Bool} (h : ∀ c, P c = true → Q c = true)
    {l : List Char} (hl : l.all P = true) : l.all Q = true := by
  rw [List.all_eq_true] at hl ⊢
  exact fun c hc => h c (hl c hc)

theorem string_mk_ne_empty {t : List Char} (h : t ≠ []) : String.mk t ≠ "" := by
  intro he
  have h2 : t = [] := by simpa using congrArg String.data he
  exact h h2

theorem string_mk_ne_sentinel {t : List Char} {P : Char → Bool}
    (htP : t.all P = true)
    (hsent : sentinelStr.data.any (fun c => !P c) = true) :
    String.mk t ≠ sentinelStr := by
  intro he
  have h2 : t = sentinelStr.data := by simpa using congrArg String.data he
  exact ne_of_all_of_any htP hsent h2

theorem normalize_mk_reduce {t : List Char} {P : Char → Bool}
    (htP : t.all P = true) (htne : t ≠ [])
    (hstrip : pyStrip t = t)
    (hPlower : ∀ c, P c = true → c.toLower = c)
    (hsent : sentinelStr.data.any (fun c => !P c) = true) :
    normalize (String.mk t) = normalizeBody t t := by
  have hmem : ∀ c ∈ t, P c = true := List.all_eq_true.mp htP
  have hlower : pyLower t = t :=
    pyLower_eq_self (fun c hc => hPlower c (hmem c hc))
  unfold normalize
  rw [if_neg]
  · show normalizeBody (pyStrip (String.mk t).data)
      (pyLower (pyStrip (String.mk t).data)) = _
    rw [show (String.mk t).data = t from rfl, hstrip, hlower]
  · simp only [Bool.or_eq_true, decide_eq_true_eq, not_or]
    exact ⟨string_mk_ne_empty htne, string_mk_ne_sentinel htP hsent⟩

def isDollarDigit (c : Char) : Bool := c == '$' || c.isDigit

def isHoursChar (c : Char) : Bool :=
  c.isDigit || c == '.' || c == ' ' || c == 'h' || c == 'o' ||
  c == 'u' || c == 'r' || c == 's'

theorem dollarDigit_not_ws : ∀ c, isDollarDigit c = true → c.isWhitespace = false := by
  intro c h
  rw [isDollarDigit, Bool.or_eq_true] at h
  rcases h with h | h
  · have h2 : c = '$' := by simpa using h
    subst h2
    rfl
  · exact digit_not_ws h

theorem dollarDigit_lower : ∀ c, isDollarDigit c = true → c.toLower = c := by
  intro c h
  rw [isDollarDigit, Bool.or_eq_true] at h
  rcases h with h | h
  · have h2 : c = '$' := by simpa using h
    subst h2
    decide
  · exact digit_toLower h

theorem hoursChar_lower : ∀ c, isHoursChar c = true → c.toLower = c := by
  intro c h
  rw [isHoursChar] at h
  simp only [Bool.or_eq_true, beq_iff_eq] at h
  rcases h with ((((((h | rfl) | rfl) | rfl) | rfl) | rfl) | rfl) | rfl
  · exact digit_toLower h
  all_goals decide

theorem sent_any_not_digit :
    sentinelStr.data.any (fun c => !c.isDigit) = true := by decide

theorem sent_any_not_dollar :
    sentinelStr.data.any (fun c => !isDollarDigit c) = true := by decide

theorem sent_any_not_hours :
    sentinelStr.data.any (fun c => !isHoursChar c) = true := by decide

theorem att_words_not_digit :
    attendance_words.all (fun w => w.data.any (fun c => !c.isDigit)) = true := by decide

theorem pay_words_not_digit :
    payment_words.all (fun w => w.data.any (fun c => !c.isDigit)) = true := by decide

theorem yes_words_not_digit :
    pa_yes_words.all (fun w => w.data.any (fun c => !c.isDigit)) = true := by decide

theorem no_words_not_digit :
    pa_no_words.all (fun w => w.data.any (fun c => !c.isDigit)) = true := by decide

theorem dur_words_not_digit :
    duration_words.all (fun w => w.data.any (fun c => !c.isDigit)) = true := by decide

theorem vague_words_not_digit :
    vague_words.all (fun w => w.data.any (fun c => !c.isDigit)) = true := by decide

theorem att_words_not_dollar :
    attendance_words.all (fun w => w.data.any (fun c => !isDollarDigit c)) = true := by decide

theorem att_words_not_hours :
    attendance_words.all (fun w => w.data.any (fun c => !isHoursChar c)) = true := by decide

theorem pay_words_not_hours :
    payment_words.all (fun w => w.data.any (fun c => !isHoursChar c)) = true := by decide

theorem yes_words_not_hours :
    pa_yes_words.all (fun w => w.data.any (fun c => !isHoursChar c)) = true := by decide

theorem no_words_not_hours :
    pa_no_words.all (fun w => w.data.any (fun c => !isHoursChar c)) = true := by decide

theorem normalize_mk_digits {d : List Char} (hne : d ≠ [])
    (hall : d.all Char.isDigit = true) :
    normalize (String.mk d) = String.mk d := by
  rw [normalize_mk_reduce hall hne
    (pyStrip_eq_self_of_all (fun c hc => digit_not_ws (List.all_eq_true.mp hall c hc)))
    (fun _ h => digit_toLower h) sent_any_not_digit]
  unfold normalizeBody
  simp [hasWord_eq_false att_words_not_digit hall,
    hasWord_eq_false pay_words_not_digit hall,
    inWordList_eq_false yes_words_not_digit hall,
    inWordList_eq_false no_words_not_digit hall,
    hasWord_eq_false dur_words_not_digit hall,
    hasWord_eq_false vague_words_not_digit hall]

theorem normalize_mk_dollar {d : List Char} (hne : d ≠ [])
    (hall : d.all Char.isDigit = true) :
    normalize (String.mk ('$' :: d)) = String.mk ('$' :: d) := by
  have htP : ('$' :: d).all isDollarDigit = true := by
    rw [List.all_cons, Bool.and_eq_true]
    exact ⟨by decide, all_mono (fun c h => by rw [isDollarDigit]; simp [h]) hall⟩
  rw [normalize_mk_reduce htP (by simp)
    (pyStrip_eq_self_of_all
      (fun c hc => dollarDigit_not_ws c (List.all_eq_true.mp htP c hc)))
    dollarDigit_lower sent_any_not_dollar]
  unfold normalizeBody
  have hpay : hasWord payment_words ('$' :: d) = true := by
    unfold hasWord
    rw [List.any_eq_true]
    exact ⟨"$", by decide, by simp [isSub, isPre]⟩
  have hrc : removeCommas ('$' :: d) = '$' :: d := by
    unfold removeCommas
    rw [List.filter_eq_self]
    intro a ha
    rcases List.mem_cons.mp ha with rfl | ha2
    · decide
    · exact digit_ne_comma (List.all_eq_true.mp hall a ha2)
  have hfd : firstDigits ('$' :: d) = firstDigits d := by
    rw [firstDigits, if_neg (by decide)]
  simp [hasWord_eq_false att_words_not_dollar htP, hpay, hrc, hfd,
    firstDigits_of_digits hne hall]

theorem normalize_mk_hours {I rest2 : List Char} (hI : I ≠ [])
    (hId : I.all Char.isDigit = true)
    (hr : rest2 = [] ∨ ∃ F, rest2 = '.' :: F ∧ F.all Char.isDigit = true) :
    normalize (String.mk ((I ++ rest2) ++ (" hours").data)) =
      String.mk ((I ++ rest2) ++ (" hours").data) := by
  have hdig : ∀ c : Char, c.isDigit = true → isHoursChar c = true := by
    intro c h
    rw [isHoursChar]
    simp [h]
  have htP : ((I ++ rest2) ++ (" hours").data).all isHoursChar = true := by
    rw [List.all_append, List.all_append, Bool.and_eq_true, Bool.and_eq_true]
    refine ⟨⟨all_mono hdig hId, ?_⟩, by decide⟩
    rcases hr with rfl | ⟨F, rfl, hF⟩
    · rfl
    · rw [List.all_cons, Bool.and_eq_true]
      exact ⟨by decide, all_mono hdig hF⟩
  have hstrip : pyStrip ((I ++ rest2) ++ (" hours").data) =
      (I ++ rest2) ++ (" hours").data := by
    apply pyStrip_eq_self_of_ends
    · intro c hc
      cases I with
      | nil => exact absurd rfl hI
      | cons a I' =>
        rw [List.all_cons, Bool.and_eq_true] at hId
        rw [List.cons_append, List.cons_append, List.head?_cons] at hc
        injection hc with hc
        subst hc
        exact digit_not_ws hId.1
    · intro c hc
      have hsplit : (I ++ rest2) ++ (" hours").data =
          ((I ++ rest2) ++ (' ' :: 'h' :: 'o' :: 'u' :: 'r' :: [])) ++ ['s'] := by
        simp
      rw [hsplit, List.getLast?_concat] at hc
      injection hc with hc
      subst hc
      rfl
  rw [normalize_mk_reduce htP (by simp) hstrip hoursChar_lower
    sent_any_not_hours]
  unfold normalizeBody
  have hdur : hasWord duration_words ((I ++ rest2) ++ (" hours").data) = true := by
    unfold hasWord
    rw [List.any_eq_true]
    refine ⟨"hour", by decide, ?_⟩
    have hsplit : (I ++ rest2) ++ (" hours").data =
        ((I ++ rest2) ++ [' ']) ++ (("hour").data ++ ['s']) := by
      simp
    rw [hsplit]
    exact isSub_parts ((I ++ rest2) ++ [' ']) ("hour").data ['s']
  rw [hasWord_eq_false att_words_not_hours htP,
      hasWord_eq_false pay_words_not_hours htP,
      inWordList_eq_false yes_words_not_hours htP,
      inWordList_eq_false no_words_not_hours htP,
      hdur, firstNumber_hours hI hId hr]
  simp

theorem normalize_mk_self {s : List Char} (hne : s ≠ [])
    (hstrip : pyStrip s = s) (hnsent : String.mk s ≠ sentinelStr)
    (hbody : normalizeBody s (pyLower s) = String.mk s) :
    normalize (String.mk s) = String.mk s := by
  unfold normalize
  rw [if_neg]
  · rw [show (String.mk s).data = s from rfl, hstrip]
    exact hbody
  · simp only [Bool.or_eq_true, decide_eq_true_eq, not_or]
    exact ⟨string_mk_ne_empty hne, hnsent⟩

theorem mk_ne_sentinel_of (cond : List Char → Bool)
    (hc : cond (pyLower sentinelStr.data) = false)
    {s : List Char} (hcs : cond (pyLower s) = true) :
    String.mk s ≠ sentinelStr := by
  intro he
  have h2 : s = sentinelStr.data := by simpa using congrArg String.data he
  rw [h2, hc] at hcs
  exact absurd hcs (by simp)

theorem sent_lower_att :
    hasWord attendance_words (pyLower sentinelStr.data) = false := by decide

theorem sent_lower_pay :
    hasWord payment_words (pyLower sentinelStr.data) = false := by decide

theorem sent_lower_dur :
    hasWord duration_words (pyLower sentinelStr.data) = false := by decide

theorem sent_lower_vague :
    hasWord vague_words (pyLower sentinelStr.data) = false := by decide

/-- C7 (amended): `normalize` is idempotent on every string that is
empty or does not strip to the empty string; equivalently, on every
input except the nonempty all-whitespace strings (on which
`normalize` returns `""` whose re-normalization is the sentinel). -/
theorem normalize_idem (v : String) (h : v = "" ∨ pyStrip v.data ≠ []) :
    normalize (normalize v) = normalize v := by
  by_cases he : v = ""
  · subst he
    decide
  by_cases hsv : v = sentinelStr
  · subst hsv
    decide
  have hs : pyStrip v.data ≠ [] := by
    rcases h with h | h
    · exact absurd h he
    · exact h
  have hv : normalize v =
      normalizeBody (pyStrip v.data) (pyLower (pyStrip v.data)) := by
    unfold normalize
    rw [if_neg]
    simp only [Bool.or_eq_true, decide_eq_true_eq, not_or]
    exact ⟨he, hsv⟩
  set s := pyStrip v.data with hsdef
  set ls := pyLower s with hlsdef
  have hstrip : pyStrip s = s := pyStrip_idem v.data
  rw [hv]
  unfold normalizeBody
  by_cases hA : hasWord attendance_words ls = true
  · rw [if_pos hA]
    rcases hfd : firstDigits s with _ | d
    · show normalize (String.mk s) = String.mk s
      refine normalize_mk_self hs hstrip
        (mk_ne_sentinel_of (hasWord attendance_words) sent_lower_att
          (hlsdef ▸ hA)) ?_
      unfold normalizeBody
      rw [← hlsdef, if_pos hA, hfd]
    · show normalize (String.mk d) = String.mk d
      obtain ⟨hdne, hdall⟩ := firstDigits_shape hfd
      exact normalize_mk_digits hdne hdall
  · rw [if_neg hA]
    by_cases hP : hasWord payment_words ls = true
    · rw [if_pos hP]
      rcases hfd : firstDigits (removeCommas s) with _ | d
      · show normalize (String.mk s) = String.mk s
        refine normalize_mk_self hs hstrip
          (mk_ne_sentinel_of (hasWord payment_words) sent_lower_pay
            (hlsdef ▸ hP)) ?_
        unfold normalizeBody
        rw [← hlsdef, if_neg hA, if_pos hP, hfd]
      · show normalize (String.mk ('$' :: d)) = String.mk ('$' :: d)
        obtain ⟨hdne, hdall⟩ := firstDigits_shape hfd
        exact normalize_mk_dollar hdne hdall
    · rw [if_neg hP]
      by_cases hY : inWordList pa_yes_words ls = true
      · rw [if_pos hY]
        decide
      · rw [if_neg hY]
        by_cases hN : inWordList pa_no_words ls = true
        · rw [if_pos hN]
          decide
        · rw [if_neg hN]
          by_cases hD : hasWord duration_words ls = true
          · rw [if_pos hD]
            rcases hfn : firstNumber s with _ | n
            · show normalize (String.mk s) = String.mk s
              refine normalize_mk_self hs hstrip
                (mk_ne_sentinel_of (hasWord duration_words) sent_lower_dur
                  (hlsdef ▸ hD)) ?_
              unfold normalizeBody
              rw [← hlsdef, if_neg hA, if_neg hP, if_neg hY, if_neg hN,
                if_pos hD, hfn]
            · show normalize (String.mk (n ++ (" hours").data)) =
                String.mk (n ++ (" hours").data)
              obtain ⟨I, rest2, heq, hI, hId, hr⟩ := firstNumber_shape hfn
              rw [heq]
              exact normalize_mk_hours hI hId hr
          · rw [if_neg hD]
            by_cases hV : hasWord vague_words ls = true
            · rw [if_pos hV]
              refine normalize_mk_self hs hstrip
                (mk_ne_sentinel_of (hasWord vague_words) sent_lower_vague
                  (hlsdef ▸ hV)) ?_
              unfold normalizeBody
              rw [← hlsdef, if_neg hA, if_neg hP, if_neg hY, if_neg hN,
                if_neg hD, if_pos hV]
            · rw [if_neg hV]
              by_cases hsd : s = sentinelStr.data
              · have hse : String.mk s = sentinelStr := by rw [hsd]
                rw [hse]
                decide
              · refine normalize_mk_self hs hstrip
                  (fun hmk => hsd (by simpa using congrArg String.data hmk)) ?_
                unfold normalizeBody
                rw [← hlsdef, if_neg hA, if_neg hP, if_neg hY, if_neg hN,
                  if_neg hD, if_neg hV]

theorem normalize_idem_witness :
    normalize (normalize "two 90-minute sets") = normalize "two 90-minute sets" :=
  normalize_idem "two 90-minute sets" (Or.inr (by decide))

end Booking
